import Mathlib

/-!
Verification of the kcp cache-replication reconciler specification.

The repository ships the e2e test harness of the replication reconciler
(test/e2e/reconciler/cache/replication_test.go) and generated fake client
bindings (sdk/client/.../fake/fake_apiresourceschema.go).  The reconciler
itself is exercised by the tests but its code is not among the given files,
so the reconciliation protocol below is modelled from the specification
(sections 3, 4.1-4.5 and 7); the fake client operations are embedded
directly from the Go source.

Objects are modelled shallowly: metadata maps (labels, annotation maps)
are association lists compared by lookup, ordered fields (the spec list)
are compared positionally, resource versions are naturals.
-/

namespace KcpCache

/-- Modelled from the spec: the reserved provenance annotation key
(`genericapirequest.AnnotationKey` in the test), marking an object of the
cache store as a managed replica and recording its origin shard. -/
def provKey : String := "kcp.dev/shard"

/-- First-match lookup in an association list, the map semantics of Go
string maps used for labels and annotation maps. -/
def lookupMap : List (String × String) → String → Option String
  | [], _ => none
  | p :: m, k => if p.1 == k then some p.2 else lookupMap m k

/-- Remove every binding of key `k` from the map. -/
def filterOut (k : String) (m : List (String × String)) : List (String × String) :=
  m.filter (fun p => p.1 != k)

/-- Set key `k` to value `v` in the map (Go `m[k] = v`). -/
def setMap (k v : String) (m : List (String × String)) : List (String × String) :=
  (k, v) :: filterOut k m

/-- Map equality by lookup: order-insensitive, as Go map comparison is. -/
def mapEquiv (m n : List (String × String)) : Bool :=
  m.all (fun p => lookupMap n p.1 == lookupMap m p.1) &&
  n.all (fun p => lookupMap m p.1 == lookupMap n p.1)

/-- Modelled from the spec: a replicated API object (SourceObject or
CachedObject shape, section 3): name, label map, annotation map, the
store-assigned resource version, the server-managed creation timestamp, an
optional deletion timestamp, and the ordered kind-specific spec fields
(e.g. `LatestResourceSchemas` of an APIExport). -/
structure Obj where
  name : String
  labels : List (String × String)
  annots : List (String × String)
  resourceVersion : Nat
  creationTS : Nat
  delTS : Option Nat
  spec : List String

deriving instance DecidableEq for Obj

/-- Modelled from the spec (section 4.1): `Annotate(object, sourceShard)`
returns a copy with the provenance annotation key set. -/
def withProv (sh : String) (o : Obj) : Obj :=
  { o with annots := setMap provKey sh o.annots }

/-- Whether the object carries the provenance annotation key: the authority
marker of Invariant I2. -/
def hasProv (o : Obj) : Bool :=
  (lookupMap o.annots provKey).isSome

/-- Modelled from the spec (section 4.1): `StripProvenance(object)` returns
a copy with the provenance annotation key removed. -/
def stripProv (o : Obj) : Obj :=
  { o with annots := filterOut provKey o.annots }

/-- Replace the resource version. -/
def setRV (n : Nat) (o : Obj) : Obj :=
  { o with resourceVersion := n }

/-- Replace the server-managed creation timestamp. -/
def setCTS (t : Nat) (o : Obj) : Obj :=
  { o with creationTS := t }

/-- Modelled from the spec (section 4.2): `Equivalent(a, b)` is structural
equality after removing the provenance annotation key, the resource version
and the server-managed creation timestamp from both sides; map-like fields
are compared order-insensitively, the ordered spec list positionally. -/
def Equivalent (a b : Obj) : Bool :=
  (a.name == b.name) &&
  mapEquiv a.labels b.labels &&
  mapEquiv (filterOut provKey a.annots) (filterOut provKey b.annots) &&
  (a.spec == b.spec) &&
  (a.delTS == b.delTS)

/-- Modelled from the spec (section 4.4 edge cases): a source object whose
deletion is in progress is treated as absent for replication purposes. -/
def effectiveSource (s : Option Obj) : Option Obj :=
  match s with
  | none => none
  | some o => if o.delTS.isSome then none else some o

/-- A write call issued against the cache store. -/
inductive WriteOp where
  | createOp (o : Obj)
  | updateOp (rv : Nat) (o : Obj)
  | deleteOp (nm : String)

deriving instance DecidableEq for WriteOp

/-- The retryable error taxonomy of the cache store (section 4.3). -/
inductive StoreErr where
  | notFound
  | alreadyExists
  | conflict

deriving instance DecidableEq for StoreErr

/-- Modelled from the spec (section 4.3): cache store write semantics.
Create fails on a present object; Update requires the caller-supplied
resource version to match (optimistic concurrency) and bumps it on
success; Delete of an absent object reports NotFound. -/
def applyWrite (st : Option Obj) (w : WriteOp) : Except StoreErr (Option Obj) :=
  match w, st with
  | .createOp o, none => .ok (some (setRV 1 o))
  | .createOp _, some _ => .error .alreadyExists
  | .updateOp rv o, some c =>
      if rv == c.resourceVersion then .ok (some (setRV (c.resourceVersion + 1) o))
      else .error .conflict
  | .updateOp _ _, none => .error .notFound
  | .deleteOp _, some _ => .ok none
  | .deleteOp _, none => .error .notFound

/-- Outcome of one reconcile invocation: converged and done, to be retried
with fresh reads under the scheduler's backoff, or surfaced as a failure
(reserved for permanent/validation errors, section 7). -/
inductive Outcome where
  | done
  | retry
  | failed

deriving instance DecidableEq for Outcome

/-- Result of one reconcile invocation: the cache store after it, its
outcome, and the write calls it issued (attempted writes included). -/
structure RResult where
  store : Option Obj
  outcome : Outcome
  writes : List WriteOp

deriving instance DecidableEq for RResult

/-- Modelled from the spec (section 4.4, rows 4 and 5 plus the non-owned
edge case): the update path for a live source `s` against the read cache
copy `c`, applied to the store state `actual`.  A copy without the
provenance annotation is left untouched; an equivalent copy is a no-op;
otherwise Update with the annotated source content carrying the cache
copy's current resource version as the optimistic-concurrency
precondition.  Conflict and NotFound are re-read-and-retry, never
failures. -/
def updatePath (sh : String) (s c : Obj) (actual : Option Obj) : RResult :=
  if hasProv c then
    if Equivalent s c then ⟨actual, .done, []⟩
    else
      let w := WriteOp.updateOp c.resourceVersion (setRV c.resourceVersion (withProv sh s))
      match applyWrite actual w with
      | .ok st' => ⟨st', .done, [w]⟩
      | .error _ => ⟨actual, .retry, [w]⟩
  else ⟨actual, .done, []⟩

/-- Modelled from the spec (section 4.4): one reconcile invocation.  The
decision is taken on the freshly read pair (source, `readSt`); writes are
applied to the store state `actual`, which differs from `readSt` only when
a concurrent writer intervened.  Deletion treats NotFound as success;
creation races (AlreadyExists) re-read and fall through to the update
path; a cache copy without the provenance annotation is never written. -/
def reconcileAttempt (sh : String) (src readSt actual : Option Obj) : RResult :=
  match effectiveSource src, readSt with
  | none, none => ⟨actual, .done, []⟩
  | none, some c =>
      if hasProv c then
        let w := WriteOp.deleteOp c.name
        match applyWrite actual w with
        | .ok st' => ⟨st', .done, [w]⟩
        | .error .notFound => ⟨actual, .done, [w]⟩
        | .error _ => ⟨actual, .retry, [w]⟩
      else ⟨actual, .done, []⟩
  | some s, none =>
      let w := WriteOp.createOp (withProv sh s)
      match applyWrite actual w with
      | .ok st' => ⟨st', .done, [w]⟩
      | .error .alreadyExists =>
          match actual with
          | some c' =>
              let r := updatePath sh s c' actual
              ⟨r.store, r.outcome, w :: r.writes⟩
          | none => ⟨actual, .retry, [w]⟩
      | .error _ => ⟨actual, .retry, [w]⟩
  | some s, some c => updatePath sh s c actual

/-- Modelled from the spec (section 4.4): an uninterfered reconcile
invocation, whose fresh reads coincide with the store it writes to. -/
def reconcileInvoke (sh : String) (src st : Option Obj) : RResult :=
  reconcileAttempt sh src st st

/-- An operation of the source store applied by its clients; the
reconciler only ever reads the outcome (section 3, lifecycle). -/
inductive SrcOp where
  | mkSrc (o : Obj)
  | updSrc (o : Obj)
  | delSrc

deriving instance DecidableEq for SrcOp

/-- Source store semantics: create succeeds only on an absent object,
update only on a present one, delete removes the object. -/
def applySrcOp (st : Option Obj) : SrcOp → Option Obj
  | .mkSrc o => match st with | none => some o | some c => some c
  | .updSrc o => match st with | none => none | some _ => some o
  | .delSrc => none

/-- The source object resulting from a sequence of client operations
starting from an absent object. -/
def applySrcOps (ops : List SrcOp) : Option Obj :=
  ops.foldl applySrcOp none

/-- The cache store holds, for this identity, either nothing or an object
carrying the provenance annotation: every CachedObject proper carries the
marker (Invariant I2). -/
def OwnedOrAbsent (st : Option Obj) : Prop :=
  ∀ c, st = some c → hasProv c = true

/-! Association-list map lemmas. -/

theorem lookupMap_filterOut (k k' : String) (m : List (String × String)) :
    lookupMap (filterOut k m) k' = if k' = k then none else lookupMap m k' := by
  induction m with
  | nil => split <;> rfl
  | cons p m ih =>
      by_cases hp : p.1 = k
      · have h1 : filterOut k (p :: m) = filterOut k m := by
          simp [filterOut, List.filter_cons, hp]
        rw [h1, ih]
        by_cases hk : k' = k
        · simp [hk]
        · have hpk' : (p.1 == k') = false := by
            rw [beq_eq_false_iff_ne, hp]
            exact fun h => hk h.symm
          simp [lookupMap, hpk', hk]
      · have h1 : filterOut k (p :: m) = p :: filterOut k m := by
          simp [filterOut, List.filter_cons, hp]
        rw [h1]
        by_cases hk : k' = k
        · subst hk
          have hpk' : (p.1 == k') = false := by
            rw [beq_eq_false_iff_ne]
            exact hp
          simp [lookupMap, hpk', ih]
        · by_cases hpk : p.1 = k'
          · simp [lookupMap, hpk, hk]
          · have hpk' : (p.1 == k') = false := by
              rw [beq_eq_false_iff_ne]
              exact hpk
            simp [lookupMap, hpk', ih, hk]

theorem lookupMap_mem (m : List (String × String)) (k : String) (v : String)
    (h : lookupMap m k = some v) : ∃ p ∈ m, p.1 = k ∧ p.2 = v := by
  induction m with
  | nil => simp [lookupMap] at h
  | cons p m ih =>
      by_cases hp : p.1 = k
      · simp [lookupMap, hp] at h
        exact ⟨p, List.mem_cons_self p m, hp, h⟩
      · simp [lookupMap, hp] at h
        obtain ⟨q, hq, hqk, hqv⟩ := ih h
        exact ⟨q, List.mem_cons_of_mem p hq, hqk, hqv⟩

theorem mapEquiv_iff (m n : List (String × String)) :
    mapEquiv m n = true ↔ ∀ k, lookupMap m k = lookupMap n k := by
  constructor
  · intro h k
    rw [mapEquiv, Bool.and_eq_true, List.all_eq_true, List.all_eq_true] at h
    obtain ⟨h1, h2⟩ := h
    cases hm : lookupMap m k with
    | some v =>
        obtain ⟨p, hp, hpk, _⟩ := lookupMap_mem m k v hm
        have hnm := h1 p hp
        rw [beq_iff_eq, hpk] at hnm
        rw [hnm, hm]
    | none =>
        cases hn : lookupMap n k with
        | none => rfl
        | some v =>
            obtain ⟨p, hp, hpk, _⟩ := lookupMap_mem n k v hn
            have hmn := h2 p hp
            rw [beq_iff_eq, hpk] at hmn
            rw [hm, hn] at hmn
            exact hmn
  · intro h
    rw [mapEquiv, Bool.and_eq_true, List.all_eq_true, List.all_eq_true]
    exact ⟨fun p _ => by simp [h], fun p _ => by simp [h]⟩

theorem mapEquiv_refl (m : List (String × String)) : mapEquiv m m = true := by
  rw [mapEquiv_iff]
  intro k
  rfl

theorem mapEquiv_symm (m n : List (String × String)) (h : mapEquiv m n = true) :
    mapEquiv n m = true := by
  rw [mapEquiv_iff] at h ⊢
  intro k
  exact (h k).symm

theorem filterOut_setMap (k v : String) (m : List (String × String)) :
    filterOut k (setMap k v m) = filterOut k m := by
  simp [setMap, filterOut, List.filter_cons, List.filter_filter]

theorem filterOut_idem (k : String) (m : List (String × String)) :
    filterOut k (filterOut k m) = filterOut k m := by
  simp [filterOut, List.filter_filter]

/-! Lemmas about the object operations and `Equivalent`. -/

theorem setRV_setRV (n m : Nat) (o : Obj) : setRV n (setRV m o) = setRV n o := rfl

theorem hasProv_setRV (n : Nat) (o : Obj) : hasProv (setRV n o) = hasProv o := rfl

theorem hasProv_withProv (sh : String) (o : Obj) : hasProv (withProv sh o) = true := by
  simp [hasProv, withProv, setMap, lookupMap]

theorem Equivalent_symm (a b : Obj) (h : Equivalent a b = true) : Equivalent b a = true := by
  simp only [Equivalent, Bool.and_eq_true, beq_iff_eq] at h ⊢
  obtain ⟨⟨⟨⟨h1, h2⟩, h3⟩, h4⟩, h5⟩ := h
  exact ⟨⟨⟨⟨h1.symm, mapEquiv_symm _ _ h2⟩, mapEquiv_symm _ _ h3⟩, h4.symm⟩, h5.symm⟩

theorem Equivalent_stripProv_left (a b : Obj) :
    Equivalent (stripProv a) b = Equivalent a b := by
  simp [Equivalent, stripProv, filterOut_idem]

/-- The object the reconciler writes to the cache store — the annotated
source content under whatever resource version the store assigns — is
Equivalent to the source object. -/
theorem equiv_written (sh : String) (n : Nat) (s : Obj) :
    Equivalent (setRV n (withProv sh s)) s = true := by
  simp [Equivalent, setRV, withProv, mapEquiv_refl, filterOut_setMap]

/-- Central convergence lemma: an uninterfered reconcile invocation whose
cache side is absent or provenance-marked ends done, with the cache store
absent when the effective source is absent and holding a provenance-marked
copy Equivalent to the source when it is present. -/
theorem invoke_done_converged (sh : String) (src st : Option Obj) (h : OwnedOrAbsent st) :
    (reconcileInvoke sh src st).outcome = Outcome.done ∧
    (effectiveSource src = none → (reconcileInvoke sh src st).store = none) ∧
    (∀ s, effectiveSource src = some s →
      ∃ c', (reconcileInvoke sh src st).store = some c' ∧
        hasProv c' = true ∧ Equivalent c' s = true) := by
  cases hsrc : effectiveSource src with
  | none =>
      cases st with
      | none => simp [reconcileInvoke, reconcileAttempt, hsrc]
      | some c =>
          have hc : hasProv c = true := h c rfl
          simp [reconcileInvoke, reconcileAttempt, hsrc, hc, applyWrite]
  | some s =>
      cases st with
      | none =>
          refine ⟨?_, ?_, ?_⟩
          · simp [reconcileInvoke, reconcileAttempt, hsrc, applyWrite]
          · intro hne
            simp [hsrc] at hne
          · intro s' hs'
            obtain rfl := Option.some.inj hs'
            refine ⟨setRV 1 (withProv sh s), ?_, ?_, equiv_written sh 1 s⟩
            · simp [reconcileInvoke, reconcileAttempt, hsrc, applyWrite]
            · rw [hasProv_setRV]
              exact hasProv_withProv sh s
      | some c =>
          have hc : hasProv c = true := h c rfl
          refine ⟨?_, ?_, ?_⟩
          · by_cases he : Equivalent s c = true
            · simp [reconcileInvoke, reconcileAttempt, hsrc, updatePath, hc, he]
            · simp [reconcileInvoke, reconcileAttempt, hsrc, updatePath, hc, he, applyWrite]
          · intro hne
            simp [hsrc] at hne
          · intro s' hs'
            obtain rfl := Option.some.inj hs'
            by_cases he : Equivalent s c = true
            · refine ⟨c, ?_, hc, Equivalent_symm _ _ he⟩
              simp [reconcileInvoke, reconcileAttempt, hsrc, updatePath, hc, he]
            · refine ⟨setRV (c.resourceVersion + 1) (withProv sh s), ?_, ?_, ?_⟩
              · simp [reconcileInvoke, reconcileAttempt, hsrc, updatePath, hc, he, applyWrite,
                  setRV_setRV]
              · rw [hasProv_setRV]
                exact hasProv_withProv sh s
              · exact equiv_written sh _ s

/-- The update path never surfaces a failure: its only outcomes are done
and re-read-and-retry. -/
theorem updatePath_not_failed (sh : String) (s c : Obj) (actual : Option Obj) :
    (updatePath sh s c actual).outcome ≠ Outcome.failed := by
  unfold updatePath
  by_cases hc : hasProv c
  · by_cases he : Equivalent s c
    · simp [hc, he]
    · cases hw : applyWrite actual
          (WriteOp.updateOp c.resourceVersion (setRV c.resourceVersion (withProv sh s))) with
      | ok st' => simp [hc, he, hw]
      | error e => simp [hc, he, hw]
  · simp [hc]

/-- A reconcile attempt never surfaces a failure, whatever interference
hit its writes: Conflict, NotFound on delete and AlreadyExists on create
all end in done or in re-read-and-retry. -/
theorem attempt_not_failed (sh : String) (src readSt actual : Option Obj) :
    (reconcileAttempt sh src readSt actual).outcome ≠ Outcome.failed := by
  cases hsrc : effectiveSource src with
  | none =>
      cases readSt with
      | none => simp [reconcileAttempt, hsrc]
      | some c =>
          by_cases hc : hasProv c
          · cases hw : applyWrite actual (WriteOp.deleteOp c.name) with
            | ok st' => simp [reconcileAttempt, hsrc, hc, hw]
            | error e => cases e <;> simp [reconcileAttempt, hsrc, hc, hw]
          · simp [reconcileAttempt, hsrc, hc]
  | some s =>
      cases readSt with
      | none =>
          cases hw : applyWrite actual (WriteOp.createOp (withProv sh s)) with
          | ok st' => simp [reconcileAttempt, hsrc, hw]
          | error e =>
              cases e with
              | alreadyExists =>
                  cases actual with
                  | none => simp [reconcileAttempt, hsrc, hw]
                  | some c' =>
                      simp [reconcileAttempt, hsrc, hw]
                      exact updatePath_not_failed sh s c' (some c')
              | notFound => simp [reconcileAttempt, hsrc, hw]
              | conflict => simp [reconcileAttempt, hsrc, hw]
      | some c =>
          simp [reconcileAttempt, hsrc]
          exact updatePath_not_failed sh s c actual

/-- Lookups in two maps with one key removed agree everywhere exactly when
the original maps agree on every other key. -/
theorem filterOut_lookup_iff (m n : List (String × String)) (k0 : String) :
    (∀ k, lookupMap (filterOut k0 m) k = lookupMap (filterOut k0 n) k) ↔
    (∀ k, k ≠ k0 → lookupMap m k = lookupMap n k) := by
  constructor
  · intro h k hk
    have hkk := h k
    rw [lookupMap_filterOut, lookupMap_filterOut, if_neg hk, if_neg hk] at hkk
    exact hkk
  · intro h k
    rw [lookupMap_filterOut, lookupMap_filterOut]
    by_cases hk : k = k0
    · simp [hk]
    · simp [hk, h k hk]

/-- The specification's reading of `Equivalent` (section 4.2): structural
equality after removing the provenance annotation key, the resource
version and the server-managed creation timestamp, map-like fields agreeing
key-by-key and the ordered spec list agreeing positionally. -/
def SpecEquivalent (a b : Obj) : Prop :=
  a.name = b.name ∧
  (∀ k, lookupMap a.labels k = lookupMap b.labels k) ∧
  (∀ k, k ≠ provKey → lookupMap a.annots k = lookupMap b.annots k) ∧
  a.spec = b.spec ∧
  a.delTS = b.delTS

/-- A sample source object used to instantiate the proved theorems. -/
def exSrc : Obj := ⟨"sheriff", [("env", "test")], [("doc", "demo")], 5, 7, none, ["a", "b"]⟩

/-- Its converged cache replica under shard "root" and cache version 3. -/
def exCache : Obj := setRV 3 (withProv "root" exSrc)

/-- The replica after out-of-band label tampering. -/
def exTampered : Obj := { exCache with labels := [("env", "test"), ("foo", "bar")] }

/-- The replica re-read at a different cache resource version. -/
def exCache9 : Obj := setRV 9 exCache

/-- A cache-store object of the same identity that lacks the provenance
annotation key. -/
def exForeign : Obj := ⟨"sheriff", [], [], 9, 7, none, ["z"]⟩

end KcpCache

namespace KcpFake

/-!
Embedding of the generated fake client
(src/sdk/client/clientset/versioned/typed/apis/v1alpha1/fake/fake_apiresourceschema.go):
the label-filtering `List` (lines 57-75) and the guarded `Apply`
(lines 128-147).
-/

/-- A stored APIResourceSchema as far as the fake `List` inspects it: its
name and its label map (`item.Labels`). -/
structure SchemaObj where
  name : String
  labels : List (String × String)

deriving instance DecidableEq for SchemaObj

/-- The list-level metadata carried by `APIResourceSchemaList.ListMeta`. -/
structure SchemaListMeta where
  resourceVersion : String
  continueToken : String

deriving instance DecidableEq for SchemaListMeta

/-- `APIResourceSchemaList`: the ListMeta and the items. -/
structure SchemaList where
  listMeta : SchemaListMeta
  items : List SchemaObj

deriving instance DecidableEq for SchemaList

/-- A label-selector requirement operator (`k8s.io/apimachinery` labels). -/
inductive SelOp where
  | opEq
  | opNeq
  | opIn
  | opNotIn
  | opExists
  | opNotExists

deriving instance DecidableEq for SelOp

/-- One requirement of a parsed label selector. -/
structure Requirement where
  key : String
  op : SelOp
  vals : List String

deriving instance DecidableEq for Requirement

/-- `Requirement.Matches` against a label set: equality and `In` need the
key present with a listed value; `NotIn` and inequality also accept an
absent key; `Exists` and `DoesNotExist` test presence only. -/
def reqMatches (ls : List (String × String)) (r : Requirement) : Bool :=
  match r.op with
  | .opExists => (KcpCache.lookupMap ls r.key).isSome
  | .opNotExists => (KcpCache.lookupMap ls r.key).isNone
  | .opEq | .opIn =>
      match KcpCache.lookupMap ls r.key with
      | some v => r.vals.contains v
      | none => false
  | .opNeq | .opNotIn =>
      match KcpCache.lookupMap ls r.key with
      | some v => !(r.vals.contains v)
      | none => true

/-- `Selector.Matches`: every requirement holds; the empty selector is
`labels.Everything()`. -/
def selMatches (sel : List Requirement) (ls : List (String × String)) : Bool :=
  sel.all (reqMatches ls)

/-- The `ListOptions` as `testing.ExtractFromListOptions` yields them: the
parsed label selector, or `none` when no selector was supplied. -/
structure ListOpts where
  labelSel : Option (List Requirement)

/-- Embedded from fake_apiresourceschema.go lines 57-75
(`FakeAPIResourceSchemas.List`): a `nil` extracted selector becomes
`labels.Everything()`; a fresh list keeps the tracked list's ListMeta and
appends, in order, exactly the items whose labels match. -/
def fakeList (stored : SchemaList) (opts : ListOpts) : SchemaList :=
  let label := opts.labelSel.getD []
  { listMeta := stored.listMeta
  , items := stored.items.foldl
      (fun acc item => if selMatches label item.labels then acc ++ [item] else acc) [] }

/-- An `APIResourceSchemaApplyConfiguration` as far as `Apply` inspects
it: the optional `Name` field and the remaining configuration content
(opaque to `Apply` beyond marshalling). -/
structure ApplyCfg where
  name : Option String
  content : List (String × String)

deriving instance DecidableEq for ApplyCfg

/-- A store action dispatched through `Fake.Invokes`: the apply-patch
action built from the name and the marshalled data. -/
inductive StoreAction where
  | patchAct (nm : String) (data : List (String × String))

deriving instance DecidableEq for StoreAction

/-- What one `Apply` call did: whether it returned early with an error,
and the store actions it invoked. -/
structure ApplyRes where
  errored : Bool
  actions : List StoreAction

deriving instance DecidableEq for ApplyRes

/-- Embedded from fake_apiresourceschema.go lines 128-147
(`FakeAPIResourceSchemas.Apply`): a `nil` configuration errors out, then
the configuration is marshalled (`json.Marshal`, modelled by the supplied
fallible `marshal`), a `nil` Name errors out, and only then is the patch
action invoked.  The `nil` argument check, the marshal step and the Name
check happen in that source order, each returning before any store
action. -/
def fakeApply (marshal : ApplyCfg → Option (List (String × String)))
    (cfg : Option ApplyCfg) : ApplyRes :=
  match cfg with
  | none => ⟨true, []⟩
  | some c =>
      match marshal c with
      | none => ⟨true, []⟩
      | some data =>
          match c.name with
          | none => ⟨true, []⟩
          | some nm => ⟨false, [.patchAct nm data]⟩

end KcpFake

/-! The claims, formalised over the model above.  C1-C8 concern the
reconciliation protocol modelled from the specification; C9 and C10 the
fake client operations embedded from the Go source. -/

namespace KcpCache

/-- C1: for every sequence of create, update and delete operations applied
to a SourceObject, the reconciler's next uninterfered fresh-read invocation
makes the CachedObject Equivalent to the SourceObject (modulo provenance
annotation key and resource version, which `Equivalent` ignores), and when
the SourceObject is deleted the CachedObject no longer exists. -/
theorem convergence_replication (sh : String) (ops : List SrcOp) (st : Option Obj)
    (h : OwnedOrAbsent st) :
    (reconcileInvoke sh (applySrcOps ops) st).outcome = Outcome.done ∧
    (effectiveSource (applySrcOps ops) = none →
      (reconcileInvoke sh (applySrcOps ops) st).store = none) ∧
    (∀ s, effectiveSource (applySrcOps ops) = some s →
      ∃ c', (reconcileInvoke sh (applySrcOps ops) st).store = some c' ∧
        hasProv c' = true ∧ Equivalent c' s = true) :=
  invoke_done_converged sh (applySrcOps ops) st h

/-- Witness for C1: creating then deleting the sample source object leaves
the reconciled cache store empty. -/
theorem convergence_replication_witness :
    (reconcileInvoke "root" (applySrcOps [SrcOp.mkSrc exSrc, SrcOp.delSrc]) none).store = none :=
  (convergence_replication "root" [SrcOp.mkSrc exSrc, SrcOp.delSrc] none
    (fun _ hc => Option.noConfusion hc)).2.1 (by decide)

/-- C2: drift correction.  With the source unchanged and live, a reconcile
of a tampered cache side (externally deleted, or externally mutated but
still provenance-marked) restores Invariant I1: the store again holds a
provenance-marked copy Equivalent to the source; an absent copy is restored
by exactly one Create and a mutated one by exactly one Update, with no
source-side operation involved. -/
theorem drift_corrected (sh : String) (s : Obj) (t : Option Obj)
    (hs : s.delTS = none) (h : OwnedOrAbsent t) :
    (reconcileInvoke sh (some s) t).outcome = Outcome.done ∧
    (∃ c', (reconcileInvoke sh (some s) t).store = some c' ∧
      hasProv c' = true ∧ Equivalent c' s = true) ∧
    (t = none → ∃ o, (reconcileInvoke sh (some s) t).writes = [WriteOp.createOp o]) ∧
    (∀ c, t = some c → Equivalent s c = false →
      ∃ rv o, (reconcileInvoke sh (some s) t).writes = [WriteOp.updateOp rv o]) := by
  have hsrc : effectiveSource (some s) = some s := by simp [effectiveSource, hs]
  obtain ⟨h1, _, h3⟩ := invoke_done_converged sh (some s) t h
  refine ⟨h1, h3 s hsrc, ?_, ?_⟩
  · rintro rfl
    exact ⟨withProv sh s, by simp [reconcileInvoke, reconcileAttempt, hsrc, applyWrite]⟩
  · rintro c rfl hne
    have hc : hasProv c = true := h c rfl
    exact ⟨c.resourceVersion, setRV c.resourceVersion (withProv sh s),
      by simp [reconcileInvoke, reconcileAttempt, hsrc, updatePath, hc, hne, applyWrite]⟩

/-- Witness for C2: the tampered sample replica is driven back to a copy
Equivalent to the sample source. -/
theorem drift_corrected_witness :
    ∃ c', (reconcileInvoke "root" (some exSrc) (some exTampered)).store = some c' ∧
      hasProv c' = true ∧ Equivalent c' exSrc = true := by
  refine (drift_corrected "root" exSrc (some exTampered) rfl ?_).2.1
  intro c hc
  obtain rfl := Option.some.inj hc
  decide

/-- C3: one reconcile invocation follows the five-row decision table, for
a cache side that is absent or provenance-marked (a CachedObject proper,
Invariant I2): no-op when both sides are absent; Delete when only the
cache copy exists, NotFound on delete being success; Annotate then Create
when only the source exists, AlreadyExists falling through to the update
path; no-op when Equivalent; otherwise Update with the annotated source
content carrying the cache copy's current resource version as the
optimistic-concurrency precondition. -/
theorem reconcile_decision_table (sh : String) (s c c' : Obj)
    (hs : s.delTS = none) (hc : hasProv c = true) :
    reconcileInvoke sh none none = ⟨none, Outcome.done, []⟩ ∧
    reconcileInvoke sh none (some c) = ⟨none, Outcome.done, [WriteOp.deleteOp c.name]⟩ ∧
    reconcileAttempt sh none (some c) none = ⟨none, Outcome.done, [WriteOp.deleteOp c.name]⟩ ∧
    reconcileInvoke sh (some s) none =
      ⟨some (setRV 1 (withProv sh s)), Outcome.done, [WriteOp.createOp (withProv sh s)]⟩ ∧
    (hasProv c' = true → Equivalent s c' = false →
      reconcileAttempt sh (some s) none (some c') =
        ⟨some (setRV (c'.resourceVersion + 1) (withProv sh s)), Outcome.done,
         [WriteOp.createOp (withProv sh s),
          WriteOp.updateOp c'.resourceVersion (setRV c'.resourceVersion (withProv sh s))]⟩) ∧
    (Equivalent s c = true → reconcileInvoke sh (some s) (some c) = ⟨some c, Outcome.done, []⟩) ∧
    (Equivalent s c = false → reconcileInvoke sh (some s) (some c) =
      ⟨some (setRV (c.resourceVersion + 1) (withProv sh s)), Outcome.done,
       [WriteOp.updateOp c.resourceVersion (setRV c.resourceVersion (withProv sh s))]⟩) := by
  have hsrc : effectiveSource (some s) = some s := by simp [effectiveSource, hs]
  refine ⟨?_, ?_, ?_, ?_, ?_, ?_, ?_⟩
  · simp [reconcileInvoke, reconcileAttempt, effectiveSource]
  · simp [reconcileInvoke, reconcileAttempt, effectiveSource, hc, applyWrite]
  · simp [reconcileAttempt, effectiveSource, hc, applyWrite]
  · simp [reconcileInvoke, reconcileAttempt, hsrc, applyWrite]
  · intro hc' hne
    simp [reconcileAttempt, hsrc, applyWrite, updatePath, hc', hne, setRV_setRV]
  · intro he
    simp [reconcileInvoke, reconcileAttempt, hsrc, updatePath, hc, he]
  · intro hne
    simp [reconcileInvoke, reconcileAttempt, hsrc, updatePath, hc, hne, applyWrite, setRV_setRV]

/-- Witness for C3: the create row at the sample source. -/
theorem reconcile_decision_table_witness :
    reconcileInvoke "root" (some exSrc) none =
      ⟨some (setRV 1 (withProv "root" exSrc)), Outcome.done,
       [WriteOp.createOp (withProv "root" exSrc)]⟩ :=
  (reconcile_decision_table "root" exSrc exCache exTampered rfl (by decide)).2.2.2.1

/-- C4: an optimistic-concurrency Conflict is never surfaced as a failure.
No reconcile attempt, under any interference, ends in the failed outcome;
a Conflict (the store moved to a different resource version between the
fresh read and the write) ends the attempt in retry with the store
untouched; and the retried invocation, re-reading both sides fresh,
converges by the same decision table. -/
theorem conflict_retry_not_fatal (sh : String) (s c c2 : Obj)
    (hs : s.delTS = none) (hc : hasProv c = true) (hne : Equivalent s c = false)
    (hrv : c2.resourceVersion ≠ c.resourceVersion) (hc2 : hasProv c2 = true) :
    (∀ src readSt actual, (reconcileAttempt sh src readSt actual).outcome ≠ Outcome.failed) ∧
    ((reconcileAttempt sh (some s) (some c) (some c2)).outcome = Outcome.retry ∧
     (reconcileAttempt sh (some s) (some c) (some c2)).store = some c2) ∧
    ((reconcileInvoke sh (some s) (some c2)).outcome = Outcome.done ∧
     ∃ c', (reconcileInvoke sh (some s) (some c2)).store = some c' ∧
       Equivalent c' s = true) := by
  have hsrc : effectiveSource (some s) = some s := by simp [effectiveSource, hs]
  have hbeq : (c.resourceVersion == c2.resourceVersion) = false := by
    rw [beq_eq_false_iff_ne]
    exact fun hh => hrv hh.symm
  refine ⟨fun src readSt actual => attempt_not_failed sh src readSt actual, ?_, ?_⟩
  · constructor <;> simp [reconcileAttempt, hsrc, updatePath, hc, hne, applyWrite, hbeq]
  · obtain ⟨h1, _, h3⟩ := invoke_done_converged sh (some s) (some c2)
      (fun x hx => Option.some.inj hx ▸ hc2)
    obtain ⟨c', hst, _, he⟩ := h3 s hsrc
    exact ⟨h1, c', hst, he⟩

/-- Witness for C4: the conflicted sample attempt ends in retry. -/
theorem conflict_retry_not_fatal_witness :
    (reconcileAttempt "root" (some exSrc) (some exTampered) (some exCache9)).outcome
      = Outcome.retry :=
  (conflict_retry_not_fatal "root" exSrc exTampered exCache9 rfl (by decide) (by decide)
    (by decide) (by decide)).2.1.1

/-- C5: provenance integrity.  After a reconcile of a live source against
an absent or provenance-marked cache side, the converged CachedObject
carries the provenance annotation key, and the copy with that key removed
is Equivalent to the SourceObject (the comparison ignoring resource
version). -/
theorem provenance_integrity_converged (sh : String) (s : Obj) (st : Option Obj)
    (hs : s.delTS = none) (h : OwnedOrAbsent st) :
    ∃ c', (reconcileInvoke sh (some s) st).store = some c' ∧
      hasProv c' = true ∧ Equivalent (stripProv c') s = true := by
  have hsrc : effectiveSource (some s) = some s := by simp [effectiveSource, hs]
  obtain ⟨_, _, h3⟩ := invoke_done_converged sh (some s) st h
  obtain ⟨c', hst, hp, he⟩ := h3 s hsrc
  refine ⟨c', hst, hp, ?_⟩
  rw [Equivalent_stripProv_left]
  exact he

/-- Witness for C5: the freshly created sample replica carries the key and
strips back to a copy Equivalent to the source. -/
theorem provenance_integrity_converged_witness :
    ∃ c', (reconcileInvoke "root" (some exSrc) none).store = some c' ∧
      hasProv c' = true ∧ Equivalent (stripProv c') exSrc = true :=
  provenance_integrity_converged "root" exSrc none rfl (fun _ hc => Option.noConfusion hc)

/-- C6: a cache-store object matching the identity but lacking the
provenance annotation key is left untouched by every fresh-read reconcile
invocation — drift-corrector triggered ones included, which run the same
invocation — whatever the source side is: the store still holds it, no
write call is issued, and the invocation ends done. -/
theorem non_owned_untouched (sh : String) (src : Option Obj) (c : Obj)
    (hc : hasProv c = false) :
    (reconcileInvoke sh src (some c)).store = some c ∧
    (reconcileInvoke sh src (some c)).writes = [] ∧
    (reconcileInvoke sh src (some c)).outcome = Outcome.done := by
  cases hsrc : effectiveSource src with
  | none => simp [reconcileInvoke, reconcileAttempt, hsrc, hc]
  | some s => simp [reconcileInvoke, reconcileAttempt, hsrc, updatePath, hc]

/-- Witness for C6: the sample non-provenance object survives a reconcile
against the live sample source unchanged. -/
theorem non_owned_untouched_witness :
    (reconcileInvoke "root" (some exSrc) (some exForeign)).store = some exForeign :=
  (non_owned_untouched "root" (some exSrc) exForeign (by decide)).1

/-- C7: idempotence.  Reconciling an already-converged identity — both
sides absent, or a cache copy Equivalent to the effective source — issues
zero write calls against the cache store. -/
theorem converged_zero_writes (sh : String) (src st : Option Obj)
    (h : (effectiveSource src = none ∧ st = none) ∨
         (∃ s c, effectiveSource src = some s ∧ st = some c ∧ Equivalent s c = true)) :
    (reconcileInvoke sh src st).writes = [] := by
  rcases h with ⟨h1, rfl⟩ | ⟨s, c, h1, rfl, h3⟩
  · simp [reconcileInvoke, reconcileAttempt, h1]
  · by_cases hc : hasProv c <;>
      simp [reconcileInvoke, reconcileAttempt, h1, updatePath, hc, h3]

/-- Witness for C7: reconciling the converged sample replica writes
nothing. -/
theorem converged_zero_writes_witness :
    (reconcileInvoke "root" (some exSrc) (some exCache)).writes = [] :=
  converged_zero_writes "root" (some exSrc) (some exCache)
    (Or.inr ⟨exSrc, exCache, by decide, rfl, by decide⟩)

/-- C8: `Equivalent` returns true exactly on deep structural equality
after removing the provenance annotation key, the resource version and the
server-managed creation timestamp — map-like fields order-insensitively
(key-by-key), the ordered spec list positionally — and is unchanged by the
bookkeeping fields alone: resource version, creation timestamp and the
provenance key never cause divergence to be reported. -/
theorem equivalent_characterization (a b : Obj) :
    (Equivalent a b = true ↔ SpecEquivalent a b) ∧
    (∀ n, Equivalent (setRV n a) b = Equivalent a b) ∧
    (∀ t, Equivalent (setCTS t a) b = Equivalent a b) ∧
    (∀ sh, Equivalent (withProv sh a) b = Equivalent a b) ∧
    Equivalent a a = true := by
  refine ⟨?_, ?_, ?_, ?_, ?_⟩
  · unfold Equivalent SpecEquivalent
    rw [Bool.and_eq_true, Bool.and_eq_true, Bool.and_eq_true, Bool.and_eq_true,
      beq_iff_eq, beq_iff_eq, beq_iff_eq, mapEquiv_iff, mapEquiv_iff, filterOut_lookup_iff]
    tauto
  · intro n
    simp [Equivalent, setRV]
  · intro t
    simp [Equivalent, setCTS]
  · intro sh
    simp [Equivalent, withProv, filterOut_setMap]
  · simp [Equivalent, mapEquiv_refl]

end KcpCache

namespace KcpFake

/-- The append-accumulating loop of the fake `List` is the order-preserving
filter. -/
theorem foldl_append_filter {α : Type} (p : α → Bool) (l acc : List α) :
    l.foldl (fun a x => if p x then a ++ [x] else a) acc = acc ++ l.filter p := by
  induction l generalizing acc with
  | nil => simp
  | cons x l ih =>
      by_cases hx : p x <;> simp [List.foldl_cons, hx, ih, List.filter_cons]

/-- C9: `FakeAPIResourceSchemas.List` keeps the tracked list's ListMeta and
returns, in their original order, exactly the stored items whose labels
match the label selector — all items when no selector is supplied. -/
theorem fake_list_label_filtering (stored : SchemaList) (opts : ListOpts) :
    (fakeList stored opts).listMeta = stored.listMeta ∧
    (fakeList stored opts).items
      = stored.items.filter (fun it => selMatches (opts.labelSel.getD []) it.labels) ∧
    (opts.labelSel = none → (fakeList stored opts).items = stored.items) ∧
    (∀ it, it ∈ (fakeList stored opts).items ↔
      it ∈ stored.items ∧ selMatches (opts.labelSel.getD []) it.labels = true) := by
  have hfilter : (fakeList stored opts).items
      = stored.items.filter (fun it => selMatches (opts.labelSel.getD []) it.labels) := by
    simp [fakeList, foldl_append_filter]
  refine ⟨rfl, hfilter, ?_, ?_⟩
  · intro hnone
    rw [hfilter, hnone]
    simp [selMatches]
  · intro it
    rw [hfilter]
    exact List.mem_filter

/-- C10: `FakeAPIResourceSchemas.Apply` returns an error and invokes no
store action when the configuration is `nil`, when marshalling fails, or
when its Name field is `nil`; the patch action — built from the name and
the marshalled data — is invoked exactly when the configuration and its
Name are non-nil and marshalling succeeds. -/
theorem fake_apply_guards (marshal : ApplyCfg → Option (List (String × String)))
    (cfg : Option ApplyCfg) :
    (cfg = none → fakeApply marshal cfg = ⟨true, []⟩) ∧
    (∀ c, cfg = some c → marshal c = none → fakeApply marshal cfg = ⟨true, []⟩) ∧
    (∀ c, cfg = some c → c.name = none → fakeApply marshal cfg = ⟨true, []⟩) ∧
    (∀ c data nm, cfg = some c → marshal c = some data → c.name = some nm →
      fakeApply marshal cfg = ⟨false, [StoreAction.patchAct nm data]⟩) ∧
    ((fakeApply marshal cfg).actions ≠ [] →
      ∃ c data nm, cfg = some c ∧ marshal c = some data ∧ c.name = some nm) := by
  refine ⟨?_, ?_, ?_, ?_, ?_⟩
  · rintro rfl
    rfl
  · rintro c rfl hm
    simp [fakeApply, hm]
  · rintro c rfl hn
    cases hm : marshal c with
    | none => simp [fakeApply, hm]
    | some data => simp [fakeApply, hm, hn]
  · rintro c data nm rfl hm hn
    simp [fakeApply, hm, hn]
  · intro hact
    cases cfg with
    | none => simp [fakeApply] at hact
    | some c =>
        cases hm : marshal c with
        | none => simp [fakeApply, hm] at hact
        | some data =>
            cases hn : c.name with
            | none => simp [fakeApply, hm, hn] at hact
            | some nm => exact ⟨c, data, nm, rfl, hm, hn⟩

end KcpFake
